import Mathlib

/-!
Shallow embedding of the RAG-Agent email orchestration code
(`AI_AGENTS/services/cache_service.py`, `AI_AGENTS/agents/llm_manager.py`,
`AI_AGENTS/agents/email_agent.py`, `AI_AGENTS/agents/ai_provider_manager.py`,
`AI_AGENTS/agents/validation_agent.py`, `AI_AGENTS/utils/email_parser.py`,
`AI_AGENTS/utils/prompt_builder.py`, `web_server.py`) together with theorems
settling the behavioural claims about that code.

Modelling conventions:
- Python `datetime.now()` is an explicit `now : Nat` argument threaded through
  the stateful cache operations; TTLs are natural numbers of seconds.
- A Python dict is an insertion-ordered association list (`dictLookup`,
  `dictInsert`, `dictErase` below mirror `d[k]`, `d[k] = v`, `del d[k]`,
  with `d[k] = v` keeping the position of an existing key, as CPython does).
- A Python value that may be `None` is an `Option`; `none` models `None`.
- Code that may raise returns `Except String`.
-/

/-- Lookup in an insertion-ordered Python dict (`d[key]` / `key in d`). -/
def dictLookup {K E : Type} [DecidableEq K] : List (K × E) → K → Option E
  | [], _ => none
  | p :: ps, k => if p.1 = k then some p.2 else dictLookup ps k

/-- `d[key] = e`: replace in place if the key is present, else append (CPython
insertion-order semantics). -/
def dictInsert {K E : Type} [DecidableEq K] : List (K × E) → K → E → List (K × E)
  | [], k, e => [(k, e)]
  | p :: ps, k, e => if p.1 = k then (k, e) :: ps else p :: dictInsert ps k e

/-- `del d[key]`: remove the entry with the given key (first occurrence). -/
def dictErase {K E : Type} [DecidableEq K] : List (K × E) → K → List (K × E)
  | [], _ => []
  | p :: ps, k => if p.1 = k then ps else p :: dictErase ps k

/-- Cache entry with metadata; `AI_AGENTS/services/cache_service.py`, class
`CacheEntry`.  `value` is `Option V` because a Python `None` can be stored. -/
structure CacheEntry (V : Type) where
  value : Option V
  created_at : Nat
  expires_at : Nat
  access_count : Nat
  last_accessed : Nat
deriving Repr, DecidableEq

/-- `CacheEntry.__init__(value, ttl)` at time `now`. -/
def CacheEntry.init {V : Type} (value : Option V) (ttl : Nat) (now : Nat) : CacheEntry V :=
  { value := value, created_at := now, expires_at := now + ttl,
    access_count := 0, last_accessed := now }

/-- `CacheEntry.is_expired`: `datetime.now() > self.expires_at`. -/
def CacheEntry.is_expired {V : Type} (e : CacheEntry V) (now : Nat) : Bool :=
  decide (now > e.expires_at)

/-- `CacheEntry.access`: bump the access count, refresh `last_accessed`. -/
def CacheEntry.access {V : Type} (e : CacheEntry V) (now : Nat) : CacheEntry V :=
  { e with access_count := e.access_count + 1, last_accessed := now }

/-- `CacheService` state: the dict of entries plus the configured bounds
(`max_size = 1000`, `default_ttl = 3600` in `__init__`).  The background
cleanup task (`_cleanup_expired_entries`) is asynchronous wall-clock code and
is not part of this sequential model; expiry is handled lazily by `get`,
exactly as the source does on every read. -/
structure CacheService (K V : Type) where
  cache : List (K × CacheEntry V)
  max_size : Nat
  default_ttl : Nat

/-- `CacheService.get`: miss on absent key; lazily delete and miss on an
expired entry; otherwise record the access and return the stored value.
Returns the value slot together with the updated state. -/
def CacheService.get {K V : Type} [DecidableEq K] (c : CacheService K V) (key : K)
    (now : Nat) : Option V × CacheService K V :=
  match dictLookup c.cache key with
  | none => (none, c)
  | some entry =>
    if entry.is_expired now then
      (none, { c with cache := dictErase c.cache key })
    else
      (entry.value, { c with cache := dictInsert c.cache key (entry.access now) })

/-- `min(self.cache.keys(), key=lambda k: self.cache[k].last_accessed)`:
the first key (in dict iteration order) whose entry has the smallest
`last_accessed`; `none` on an empty dict. -/
def oldestKey {K V : Type} : List (K × CacheEntry V) → Option K
  | [] => none
  | p :: ps =>
    some ((ps.foldl (fun best q =>
      if q.2.last_accessed < best.2.last_accessed then q else best) p).1)

/-- `CacheService._evict_oldest`: drop the entry with the oldest
`last_accessed`; a no-op on an empty cache. -/
def CacheService.evict_oldest {K V : Type} [DecidableEq K] (c : CacheService K V) :
    CacheService K V :=
  match oldestKey c.cache with
  | none => c
  | some k => { c with cache := dictErase c.cache k }

/-- `CacheService.set`: build the fresh entry with `ttl` (defaulting to
`default_ttl`), evict one entry if the store is at capacity, then store. -/
def CacheService.set {K V : Type} [DecidableEq K] (c : CacheService K V) (key : K)
    (value : Option V) (ttl : Option Nat) (now : Nat) : CacheService K V :=
  let t := ttl.getD c.default_ttl
  let entry := CacheEntry.init value t now
  let c1 := if c.cache.length ≥ c.max_size then c.evict_oldest else c
  { c1 with cache := dictInsert c1.cache key entry }

/-- `CacheService.delete`: remove the key if present, reporting whether it was. -/
def CacheService.delete {K V : Type} [DecidableEq K] (c : CacheService K V) (key : K) :
    Bool × CacheService K V :=
  if (dictLookup c.cache key).isSome then
    (true, { c with cache := dictErase c.cache key })
  else (false, c)

/-- `CacheService.clear`: drop every entry. -/
def CacheService.clear {K V : Type} (c : CacheService K V) : CacheService K V :=
  { c with cache := [] }

/-- Result of `CacheService.get_or_set`: the returned value or the propagated
factory failure, the final cache state, and how many times the factory ran. -/
structure GetOrSetResult (K V E : Type) where
  result : Except E (Option V)
  state : CacheService K V
  factory_calls : Nat

/-- `CacheService.get_or_set`: read through the cache; on a miss (which in the
source means `get` returned `None` — an absent key, an expired entry, or a
stored `None`) run the factory and cache its value.  If the factory raises,
the outer `except` block runs the factory a second time (`return await
factory_func()`), whose failure propagates to the caller with nothing cached;
the factory is modelled as deterministic, so both runs fail alike. -/
def CacheService.get_or_set {K V E : Type} [DecidableEq K] (c : CacheService K V)
    (key : K) (factory : Except E (Option V)) (ttl : Option Nat) (now : Nat) :
    GetOrSetResult K V E :=
  let r := c.get key now
  match r.1 with
  | some value => { result := Except.ok (some value), state := r.2, factory_calls := 0 }
  | none =>
    match factory with
    | Except.ok value =>
      { result := Except.ok value, state := r.2.set key value ttl now, factory_calls := 1 }
    | Except.error e =>
      { result := Except.error e, state := r.2, factory_calls := 2 }

/-- A LangChain chat message (`SystemMessage` / `HumanMessage`). -/
inductive Message where
  | system (content : String)
  | human (content : String)
deriving Repr, DecidableEq

/-- Message list built by `LLMManager.generate_text`: the optional system
prompt followed by the user prompt. -/
def buildMessages (prompt : String) (system_prompt : Option String) : List Message :=
  (match system_prompt with
   | some sp => [Message.system sp]
   | none => []) ++ [Message.human prompt]

/-- `AI_AGENTS/agents/llm_manager.py`, class `LLMManager`.  `models` is the
provider dict: each identifier maps to the behaviour of `model.ainvoke` on a
message list — `some text` models a successful completion, `none` models a
raised exception.  `model_order` is the fallback order list kept alongside. -/
structure LLMManager where
  models : List (String × (List Message → Option String))
  model_order : List String

/-- The try-order built at the top of `generate_text`: the preferred model if
it is truthy and registered, then the rest of `model_order`, skipping
duplicates (`if model not in models_to_try`). -/
def LLMManager.models_to_try (m : LLMManager) (preferred_model : Option String) :
    List String :=
  let init : List String :=
    match preferred_model with
    | some p => if p ≠ "" ∧ (dictLookup m.models p).isSome then [p] else []
    | none => []
  m.model_order.foldl (fun acc name => if name ∈ acc then acc else acc ++ [name]) init

/-- Result dictionary of `LLMManager.generate_text` (the wall-clock
`processing_time` field is not modelled). -/
structure GenResult where
  success : Bool
  response : String
  model_used : Option String
  error : Option String
deriving Repr, DecidableEq

/-- The fixed user-facing apology returned when every model fails. -/
def apologyMessage : String :=
  "I apologize, but I'm unable to generate a response at this time. Please try again later."

/-- The internal error message logged and returned when every model fails. -/
def allFailedMessage : String := "All LLM models failed to generate response"

/-- The result returned by `generate_text` when every model has failed. -/
def allFailedResult : GenResult :=
  { success := false, response := apologyMessage, model_used := none,
    error := some allFailedMessage }

/-- The `for model_name in models_to_try` loop of `generate_text`: invoke each
candidate in turn, stop at the first success, fall through to the apology
result when the list is exhausted.  Also returns the list of candidates
actually attempted, in order (a missing dict key would raise inside the same
`try` and counts as an attempted, failing candidate). -/
def tryModelsLoop (models : List (String × (List Message → Option String)))
    (msgs : List Message) : List String → GenResult × List String
  | [] => (allFailedResult, [])
  | name :: rest =>
    match dictLookup models name with
    | some callModel =>
      match callModel msgs with
      | some text =>
        ({ success := true, response := text, model_used := some name, error := none },
         [name])
      | none =>
        let r := tryModelsLoop models msgs rest
        (r.1, name :: r.2)
    | none =>
      let r := tryModelsLoop models msgs rest
      (r.1, name :: r.2)

/-- `LLMManager.generate_text(prompt, system_prompt, preferred_model)`:
build the try-order and the messages, then run the fallback loop.  Returns
the result dict together with the trace of candidates attempted. -/
def LLMManager.generate_text (m : LLMManager) (prompt : String)
    (system_prompt : Option String) (preferred_model : Option String) :
    GenResult × List String :=
  tryModelsLoop m.models (buildMessages prompt system_prompt)
    (m.models_to_try preferred_model)

/-- System prompt of `LLMManager.extract_sender_name`. -/
def extractSenderSystemPrompt : String :=
  "You are an expert email parser. Extract the sender's name from the email content. \n        Return only the name, nothing else. If no clear name is found, return 'Unknown'."

/-- `LLMManager.extract_sender_name`: ask the fallback invoker; on success,
strip the reply and map empty or literal `Unknown` to `none`; on failure
return `none`.  No other fallback is attempted. -/
def LLMManager.extract_sender_name (m : LLMManager) (email_content : String)
    (preferred_model : Option String) : Option String :=
  let result := (m.generate_text email_content (some extractSenderSystemPrompt)
    preferred_model).1
  if result.success then
    let name := result.response.trim
    if name ≠ "" ∧ name ≠ "Unknown" then some name else none
  else none

/-- Well-formedness of a registry as built by `_initialize_models`: the dict
keys and `model_order` are extended together, so they list the same
identifiers in the same order, without duplicates, and every identifier is
one of the four non-empty literals (here only non-emptiness is retained). -/
def LLMManager.WF (m : LLMManager) : Prop :=
  m.models.map Prod.fst = m.model_order ∧ m.model_order.Nodup ∧ "" ∉ m.model_order

/-- Python string truthiness for the `email_request.intent or "general"`
default used by `PromptBuilder.generate_fallback_email`. -/
def pyOrGeneral (s : Option String) : String :=
  match s with
  | some v => if v = "" then "general" else v
  | none => "general"

/-- `EmailRequest` dataclass of `AI_AGENTS/agents/email_agent.py`. -/
structure EmailRequest where
  from_email : String
  name : String
  subject : String
  content : String
  intent : Option String
deriving Repr, DecidableEq

/-- `EmailResponse` dataclass of `AI_AGENTS/agents/email_agent.py`. -/
structure EmailResponse where
  subject : String
  body : String
  intent : String
  customer_type : String
  is_new_lead : Bool
  sent : Bool
  message_id : Option String
deriving Repr, DecidableEq

/-- The generated email content dict: the fields of
`PromptBuilder.generate_fallback_email`, which are also the ones
`process_email` reads from an LLM-generated dict. -/
structure EmailContent where
  subject : String
  body : String
  intent : String
  tone : String
  next_steps : List String
  personalization_level : String
deriving Repr, DecidableEq

/-- `PromptBuilder.company_name`. -/
def companyName : String := "Thryvix AI"

/-- `PromptBuilder.generate_fallback_email(email_request, is_new_customer)`:
the two hand-written template emails substituted when the LLM fails. -/
def generate_fallback_email (req : EmailRequest) (is_new_customer : Bool) :
    EmailContent :=
  if is_new_customer then
    { subject := "Welcome to " ++ companyName ++ " – You Are Very Important to Us!",
      body := "Hi " ++ req.name ++ ",\n\nWe are absolutely thrilled by your interest in "
        ++ companyName ++ "! You are very important to us, and we want to make sure your experience with our products is exceptional.\n\nOur team is excited to work with you and will reach out shortly to provide you with a personalized introduction to our services. We're committed to making you feel valued and ensuring your success.\n\nThank you for choosing "
        ++ companyName ++ "!\n\nWarm regards,\nThe " ++ companyName ++ " Team",
      intent := pyOrGeneral req.intent,
      tone := "warm_personalized",
      next_steps := ["Personalized consultation", "Product demonstration", "Follow-up call"],
      personalization_level := "high" }
  else
    { subject := "Re: " ++ req.subject,
      body := "Hi " ++ req.name ++ ",\n\nThank you for reaching out to "
        ++ companyName ++ ". We've received your message and appreciate your continued business.\n\nOur team will review your request and get back to you within 24 hours with a detailed response.\n\nIf you have any urgent questions, please don't hesitate to contact us directly.\n\nBest regards,\nThe "
        ++ companyName ++ " Team",
      intent := pyOrGeneral req.intent,
      tone := "professional",
      next_steps := ["Review request", "Prepare response", "Follow-up"],
      personalization_level := "medium" }

/-- `lead_info.get('exists', False)` from `crm_service.check_lead`. -/
structure LeadInfo where
  exists_lead : Bool
deriving Repr, DecidableEq

/-- Result of `email_service.send_email`. -/
structure SendResult where
  success : Bool
  message_id : Option String
deriving Repr, DecidableEq

/-- The external collaborators of `EmailAgent.process_email`, each modelled by
its outcome for this call: CRM lookup, the cache read inside
`_generate_email_content` (`some` is a truthy cached dict), the fallback
invoker result, JSON parsing of the model reply (`none` is a
`JSONDecodeError`), the mail send, and the CRM insert. -/
structure EmailEnv where
  check_lead : Except String LeadInfo
  cached_content : Option EmailContent
  llm_result : GenResult
  parse_json : String → Option EmailContent
  send_email : Except String SendResult
  add_new_lead : Except String Unit

/-- `EmailAgent._generate_email_content`: cached content wins; otherwise on a
successful LLM call parse its JSON (falling back to the template on a parse
error), and on a failed call use the template.  Every branch catches its own
errors, so this helper never raises.  (The cache write of the parsed content
is a `cache_service.set` side effect, invisible in this per-call model.) -/
def generate_email_content (env : EmailEnv) (req : EmailRequest)
    (is_new_lead : Bool) : EmailContent :=
  match env.cached_content with
  | some cached => cached
  | none =>
    if env.llm_result.success then
      match env.parse_json env.llm_result.response with
      | some content => content
      | none => generate_fallback_email req is_new_lead
    else
      generate_fallback_email req is_new_lead

/-- The response built by the top-level `except` handler of
`EmailAgent.process_email`: the new-customer fallback template, marked
`sent=True` so the frontend shows it as delivered. -/
def fallbackResponse (req : EmailRequest) : EmailResponse :=
  let fc := generate_fallback_email req true
  { subject := fc.subject, body := fc.body, intent := fc.intent,
    customer_type := "new_lead", is_new_lead := true, sent := true,
    message_id := none }

/-- `EmailAgent.process_email`: check the CRM, generate content, send, update
the CRM for new leads, and return the response; any exception raised along
the way is caught by the top-level handler, which returns
`fallbackResponse`.  (`_log_to_outbox` catches its own errors and returns
nothing, so it cannot reach the handler and is not modelled.) -/
def process_email (env : EmailEnv) (req : EmailRequest) : EmailResponse :=
  match env.check_lead with
  | Except.error _ => fallbackResponse req
  | Except.ok lead_info =>
    let is_new_lead := ! lead_info.exists_lead
    let validated_content := generate_email_content env req is_new_lead
    match env.send_email with
    | Except.error _ => fallbackResponse req
    | Except.ok send_result =>
      match (if is_new_lead then env.add_new_lead else Except.ok ()) with
      | Except.error _ => fallbackResponse req
      | Except.ok _ =>
        { subject := validated_content.subject,
          body := validated_content.body,
          intent := validated_content.intent,
          customer_type := if is_new_lead then "new_lead" else "existing_lead",
          is_new_lead := is_new_lead,
          sent := send_result.success,
          message_id := send_result.message_id }

/-- One slot of the list returned by
`AIProviderManager.batch_process_emails`: either the dict produced for the
email, or the error marker `{"error": str(result), "email": emails[i]}`
substituted for an exception collected by `asyncio.gather(...,
return_exceptions=True)`. -/
inductive BatchOutcome (ε ρ : Type) where
  | ok (r : ρ)
  | failed (msg : String) (email : ε)
deriving Repr, DecidableEq

/-- `AIProviderManager.batch_process_emails`: run `process_single_email` on
every email (`proc e` is that call's outcome, `Except.error` an escaped
exception), gather the outcomes positionally, and replace exceptions by
error markers carrying the original email. -/
def batch_process_emails {ε ρ : Type} (proc : ε → Except String ρ)
    (emails : List ε) : List (BatchOutcome ε ρ) :=
  emails.map (fun e =>
    match proc e with
    | Except.ok r => BatchOutcome.ok r
    | Except.error msg => BatchOutcome.failed msg e)

/-- One entry of the `results` array of the `/api/batch/process` handler in
`web_server.py`: `{"index", "success", "sender_name", "reply"}` on success,
`{"index", "success": False, "error"}` on a caught exception. -/
structure WSBatchItem where
  index : Nat
  success : Bool
  sender_name : Option (Option String)
  reply : Option String
  error : Option String
deriving Repr, DecidableEq

/-- The `web_server.py` batch loop: process each email at its index inside a
`try`, appending a success entry or an error entry, never aborting the loop.
`proc e` is the outcome of the per-email body (name extraction + reply). -/
def ws_batch_process {ε : Type} (proc : ε → Except String (Option String × String))
    (emails : List ε) : List WSBatchItem :=
  emails.enum.map (fun p =>
    match proc p.2 with
    | Except.ok nr =>
      { index := p.1, success := true, sender_name := some nr.1,
        reply := some nr.2, error := none }
    | Except.error msg =>
      { index := p.1, success := false, sender_name := none,
        reply := none, error := some msg })

/-- Does the haystack start with the needle (character lists)? -/
def startsWithChars : List Char → List Char → Bool
  | _, [] => true
  | [], _ :: _ => false
  | c :: cs, d :: ds => c = d && startsWithChars cs ds

/-- Python substring containment `needle in hay` on character lists. -/
def containsSub (hay needle : List Char) : Bool :=
  if startsWithChars hay needle then true
  else
    match hay with
    | [] => false
    | _ :: t => containsSub t needle

/-- Python `keyword in content` on strings. -/
def strContains (s sub : String) : Bool := containsSub s.data sub.data

/-- Python `str.lower()` (character-wise, as for the ASCII texts involved). -/
def pyLower (s : String) : String := String.mk (s.data.map Char.toLower)

/-- The `intent_keywords` dict of `ValidationAgent.determine_intent`
(`AI_AGENTS/agents/validation_agent.py`), in insertion order. -/
def intent_keywords : List (String × List String) :=
  [("sales", ["demo", "pricing", "buy", "purchase", "cost", "price", "interested",
     "product", "quote"]),
   ("support", ["help", "issue", "problem", "bug", "error", "not working", "support",
     "assistance"]),
   ("partnership", ["partnership", "collaborate", "partner", "business", "deal",
     "collaboration"]),
   ("general", ["hello", "hi", "information", "question", "inquiry", "contact"])]

/-- `sum(1 for keyword in keywords if keyword in content_lower)`. -/
def keywordScore (content_lower : String) (keywords : List String) : Nat :=
  (keywords.filter (fun k => strContains content_lower k)).length

/-- `max(intent_scores, key=intent_scores.get)`: the first pair (in dict
iteration order) with the largest score — CPython `max` keeps the earlier
element on ties. -/
def argmaxScore : List (String × Nat) → Option (String × Nat)
  | [] => none
  | p :: ps =>
    some (ps.foldl (fun best q => if q.2 > best.2 then q else best) p)

/-- `ValidationAgent.determine_intent(email_content, subject)`: lowercase
`subject + " " + email_content`, score each intent by keyword hits, return
the highest-scoring intent, or `general` when the best score is zero. -/
def determine_intent (email_content : String) (subject : String) : String :=
  let content_lower := pyLower (subject ++ " " ++ email_content)
  let intent_scores := intent_keywords.map (fun p => (p.1, keywordScore content_lower p.2))
  match argmaxScore intent_scores with
  | some best => if best.2 > 0 then best.1 else "general"
  | none => "general"

/-- An element of one of the regex patterns of
`EmailParser.extract_sender_name_fallback`: a case-insensitive literal
(`re.IGNORECASE` is set), a greedy `class*`, a greedy `class+`, or the
single capturing group `(class)+`. -/
inductive Atom where
  | lit (s : List Char)
  | star (p : Char → Bool)
  | plus (p : Char → Bool)
  | group (p : Char → Bool)

/-- Case-insensitive literal match: the remaining input on success. -/
def ciMatch : List Char → List Char → Option (List Char)
  | [], cs => some cs
  | _ :: _, [] => none
  | p :: ps, c :: cs => if c.toLower = p.toLower then ciMatch ps cs else none

/-- Try `f n, f (n-1), ..., f 0` and keep the first defined answer — the
backtracking order of a greedy repetition. -/
def firstSome {α : Type} (f : Nat → Option α) : Nat → Option α
  | 0 => f 0
  | n + 1 =>
    match f (n + 1) with
    | some r => some r
    | none => firstSome f n

/-- Match a pattern (a list of atoms) against the input at the current
position, with greedy repetitions and full backtracking, as Python `re`
does; a match need not consume the whole input.  Returns the text of the
capturing group of the successful alternative. -/
def matchAtoms : List Atom → List Char → Option (List Char) → Option (List Char)
  | [], _, cap => some (cap.getD [])
  | Atom.lit s :: as, cs, cap =>
    match ciMatch s cs with
    | some rest => matchAtoms as rest cap
    | none => none
  | Atom.star p :: as, cs, cap =>
    firstSome (fun k => matchAtoms as (cs.drop k) cap) (cs.takeWhile p).length
  | Atom.plus p :: as, cs, cap =>
    let n := (cs.takeWhile p).length
    if n = 0 then none
    else firstSome (fun j => matchAtoms as (cs.drop (j + 1)) cap) (n - 1)
  | Atom.group p :: as, cs, _cap =>
    let n := (cs.takeWhile p).length
    if n = 0 then none
    else firstSome (fun j => matchAtoms as (cs.drop (j + 1)) (some (cs.take (j + 1)))) (n - 1)

/-- All suffixes of the input, longest first: the candidate starting
positions of an unanchored `re.search`, scanned left to right. -/
def suffixesOf : List Char → List (List Char)
  | [] => [[]]
  | c :: cs => (c :: cs) :: suffixesOf cs

/-- The suffixes at line starts (position 0 and after each newline): the
candidate positions of a `^`-anchored pattern under `re.MULTILINE`. -/
def lineStartTails : List Char → List (List Char)
  | [] => []
  | c :: cs => if c = '\n' then cs :: lineStartTails cs else lineStartTails cs

/-- Candidate positions for a pattern: every position, or line starts only
for `^`-anchored patterns. -/
def searchPositions (anchored : Bool) (cs : List Char) : List (List Char) :=
  if anchored then cs :: lineStartTails cs else suffixesOf cs

/-- `re.search`: try the candidate positions left to right, returning the
captured group of the first position where the pattern matches. -/
def reSearch (anchored : Bool) (atoms : List Atom) (cs : List Char) :
    Option (List Char) :=
  (searchPositions anchored cs).findSome? (fun tail => matchAtoms atoms tail none)

/-- Python `\s` (the ASCII whitespace characters). -/
def isPySpace (c : Char) : Bool :=
  c = ' ' || c = '\t' || c = '\n' || c = '\r' || c = Char.ofNat 11 || c = Char.ofNat 12

/-- The class `[^<\n]`. -/
def notLtNl (c : Char) : Bool := !(c = '<' || c = '\n')

/-- The class `[^>]`. -/
def notGt (c : Char) : Bool := !(c = '>')

/-- The class `[^@\n]`. -/
def notAtNl (c : Char) : Bool := !(c = '@' || c = '\n')

/-- The four `patterns` of `EmailParser.extract_sender_name_fallback`, each
tagged with whether it is `^`-anchored:
`From:\s*([^<\n]+)`, `Sender:\s*([^<\n]+)`, `^([^<\n]+)\s*<[^>]+>`,
`^([^@\n]+)@`. -/
def senderPatterns : List (Bool × List Atom) :=
  [(false, [Atom.lit ("From:".data), Atom.star isPySpace, Atom.group notLtNl]),
   (false, [Atom.lit ("Sender:".data), Atom.star isPySpace, Atom.group notLtNl]),
   (true, [Atom.group notLtNl, Atom.star isPySpace, Atom.lit ("<".data),
     Atom.plus notGt, Atom.lit (">".data)]),
   (true, [Atom.group notAtNl, Atom.lit ("@".data)])]

/-- Python `str.strip()` on the captured group. -/
def stripChars (cs : List Char) : List Char :=
  ((cs.dropWhile isPySpace).reverse.dropWhile isPySpace).reverse

/-- `re.sub(r'["\']', '', name)`: drop double and single quotes. -/
def removeQuoteChars (cs : List Char) : List Char :=
  cs.filter (fun c => !(c = '"' || c = Char.ofNat 39))

/-- Helper for `normalizeWs`: the flag records whether the previous character
was part of a whitespace run already replaced by a space. -/
def normalizeWsAux : List Char → Bool → List Char
  | [], _ => []
  | c :: cs, inRun =>
    if isPySpace c then
      if inRun then normalizeWsAux cs true
      else ' ' :: normalizeWsAux cs true
    else c :: normalizeWsAux cs false

/-- `re.sub(r'\s+', ' ', name)`: collapse each whitespace run to one space. -/
def normalizeWs (cs : List Char) : List Char := normalizeWsAux cs false

/-- `EmailParser.extract_sender_name_fallback(email_content)`: try each
pattern in order; on a match, strip, de-quote and whitespace-normalize the
captured group, and return it when it is non-empty with length above one;
otherwise fall through to the next pattern, and finally to `None`. -/
def extract_sender_name_fallback (email_content : String) : Option String :=
  let cs := email_content.data
  senderPatterns.findSome? (fun pat =>
    match reSearch pat.1 pat.2 cs with
    | none => none
    | some grp =>
      let name := normalizeWs (removeQuoteChars (stripChars grp))
      if name ≠ [] ∧ name.length > 1 then some (String.mk name) else none)

/-- A registry whose first model fails and whose second one answers; used to
exercise the fallback order concretely. -/
def mW : LLMManager :=
  { models := [("openai", fun _ => none),
               ("groq", fun _ => some "hello from groq"),
               ("google", fun _ => some "hello from google")],
    model_order := ["openai", "groq", "google"] }

/-- A registry with a single, always-failing model. -/
def mFail : LLMManager :=
  { models := [("openai", fun _ => none)], model_order := ["openai"] }

/-- The empty registry (the constructor raises before producing one, but the
fallback loop is specified on it all the same). -/
def mEmpty : LLMManager := { models := [], model_order := [] }

/-- An empty cache over small scalar keys and values. -/
def cacheW : CacheService Nat Nat := { cache := [], max_size := 1000, default_ttl := 3600 }

/-- A cache at capacity (`max_size = 2`); the entry at key `1` has the oldest
`last_accessed` and is the LRU victim. -/
def cacheFull : CacheService Nat Nat :=
  { cache := [(0, { value := some 10, created_at := 0, expires_at := 3600,
                    access_count := 0, last_accessed := 5 }),
              (1, { value := some 11, created_at := 0, expires_at := 3600,
                    access_count := 2, last_accessed := 3 })],
    max_size := 2, default_ttl := 3600 }

/-- A cache holding an unexpired entry whose stored value is Python `None`. -/
def cacheNoneW : CacheService Nat Nat :=
  { cache := [(7, CacheEntry.init none 3600 0)], max_size := 1000, default_ttl := 3600 }

/-- An email-processing environment whose CRM lookup raises. -/
def envErrW : EmailEnv :=
  { check_lead := Except.error "crm down", cached_content := none,
    llm_result := allFailedResult, parse_json := fun _ => none,
    send_email := Except.ok { success := true, message_id := some "mid" },
    add_new_lead := Except.ok () }

/-- A concrete email request. -/
def reqW : EmailRequest :=
  { from_email := "a@b.com", name := "Alice", subject := "Hi", content := "Hello",
    intent := none }

/-! ### Lemmas about the Python-dict model -/

theorem dictLookup_eq_none_iff {K E : Type} [DecidableEq K] (l : List (K × E)) (k : K) :
    dictLookup l k = none ↔ k ∉ l.map Prod.fst := by
  induction l with
  | nil => simp [dictLookup]
  | cons p ps ih =>
    by_cases h : p.1 = k
    · simp [dictLookup, h]
    · simp only [dictLookup, if_neg h, List.map_cons, List.mem_cons, ih]
      constructor
      · rintro hk (rfl | hmem)
        · exact h rfl
        · exact hk hmem
      · intro hk hmem
        exact hk (Or.inr hmem)

theorem dictLookup_isSome_iff {K E : Type} [DecidableEq K] (l : List (K × E)) (k : K) :
    (dictLookup l k).isSome = true ↔ k ∈ l.map Prod.fst := by
  rcases h : dictLookup l k with _ | e
  · constructor
    · intro hs
      cases hs
    · intro hk
      exact absurd hk ((dictLookup_eq_none_iff l k).mp h)
  · constructor
    · intro _
      by_contra hk
      rw [(dictLookup_eq_none_iff l k).mpr hk] at h
      cases h
    · intro _
      rfl

theorem mem_keys_of_dictLookup {K E : Type} [DecidableEq K] {l : List (K × E)} {k : K}
    {e : E} (h : dictLookup l k = some e) : k ∈ l.map Prod.fst := by
  rw [← dictLookup_isSome_iff, h]
  rfl

theorem dictLookup_dictInsert_self {K E : Type} [DecidableEq K] (l : List (K × E))
    (k : K) (e : E) : dictLookup (dictInsert l k e) k = some e := by
  induction l with
  | nil => simp [dictInsert, dictLookup]
  | cons p ps ih =>
    by_cases h : p.1 = k
    · simp [dictInsert, dictLookup, h]
    · simp [dictInsert, dictLookup, h, ih]

theorem map_fst_dictInsert_of_mem {K E : Type} [DecidableEq K] {l : List (K × E)} {k : K}
    (e : E) (h : k ∈ l.map Prod.fst) :
    (dictInsert l k e).map Prod.fst = l.map Prod.fst := by
  induction l with
  | nil => cases h
  | cons p ps ih =>
    by_cases hp : p.1 = k
    · simp [dictInsert, hp]
    · have hmem : k ∈ ps.map Prod.fst := by
        rcases List.mem_cons.mp h with h1 | h2
        · exact absurd h1.symm hp
        · exact h2
      simp [dictInsert, hp, ih hmem]

theorem map_fst_dictInsert_of_not_mem {K E : Type} [DecidableEq K] {l : List (K × E)}
    {k : K} (e : E) (h : k ∉ l.map Prod.fst) :
    (dictInsert l k e).map Prod.fst = l.map Prod.fst ++ [k] := by
  induction l with
  | nil => simp [dictInsert]
  | cons p ps ih =>
    have hp : p.1 ≠ k := by
      intro hk
      exact h (by simp [hk])
    have hmem : k ∉ ps.map Prod.fst := by
      intro hk
      exact h (by simp [hk])
    simp [dictInsert, hp, ih hmem]

theorem length_dictInsert_le {K E : Type} [DecidableEq K] (l : List (K × E)) (k : K)
    (e : E) : (dictInsert l k e).length ≤ l.length + 1 := by
  induction l with
  | nil => simp [dictInsert]
  | cons p ps ih =>
    by_cases h : p.1 = k
    · simp [dictInsert, h]
    · simp only [dictInsert, if_neg h, List.length_cons]
      omega

theorem length_dictInsert_of_mem {K E : Type} [DecidableEq K] {l : List (K × E)} {k : K}
    (e : E) (h : k ∈ l.map Prod.fst) : (dictInsert l k e).length = l.length := by
  induction l with
  | nil => cases h
  | cons p ps ih =>
    by_cases hp : p.1 = k
    · simp [dictInsert, hp]
    · have hmem : k ∈ ps.map Prod.fst := by
        rcases List.mem_cons.mp h with h1 | h2
        · exact absurd h1.symm hp
        · exact h2
      simp [dictInsert, hp, ih hmem]

theorem dictErase_sublist {K E : Type} [DecidableEq K] (l : List (K × E)) (k : K) :
    List.Sublist (dictErase l k) l := by
  induction l with
  | nil => simp [dictErase]
  | cons p ps ih =>
    by_cases h : p.1 = k
    · simp only [dictErase, if_pos h]
      exact (List.sublist_cons_self p ps)
    · simp only [dictErase, if_neg h]
      exact List.Sublist.cons₂ p ih

theorem length_dictErase_le {K E : Type} [DecidableEq K] (l : List (K × E)) (k : K) :
    (dictErase l k).length ≤ l.length :=
  (dictErase_sublist l k).length_le

theorem length_dictErase_of_mem {K E : Type} [DecidableEq K] {l : List (K × E)} {k : K}
    (h : k ∈ l.map Prod.fst) : (dictErase l k).length + 1 = l.length := by
  induction l with
  | nil => cases h
  | cons p ps ih =>
    by_cases hp : p.1 = k
    · simp [dictErase, hp]
    · have hmem : k ∈ ps.map Prod.fst := by
        rcases List.mem_cons.mp h with h1 | h2
        · exact absurd h1.symm hp
        · exact h2
      simp only [dictErase, if_neg hp, List.length_cons, ih hmem]

theorem nodup_keys_dictErase {K E : Type} [DecidableEq K] {l : List (K × E)} (k : K)
    (h : (l.map Prod.fst).Nodup) : ((dictErase l k).map Prod.fst).Nodup :=
  ((dictErase_sublist l k).map Prod.fst).nodup h

theorem nodup_keys_dictInsert {K E : Type} [DecidableEq K] {l : List (K × E)} (k : K)
    (e : E) (h : (l.map Prod.fst).Nodup) :
    ((dictInsert l k e).map Prod.fst).Nodup := by
  by_cases hk : k ∈ l.map Prod.fst
  · rw [map_fst_dictInsert_of_mem e hk]
    exact h
  · rw [map_fst_dictInsert_of_not_mem e hk]
    simp only [List.nodup_append, List.nodup_cons, List.nodup_nil]
    refine ⟨h, ⟨by simp, trivial⟩, ?_⟩
    intro a ha hb
    simp only [List.mem_singleton] at hb
    exact hk (hb ▸ ha)

theorem dictLookup_dictErase_self {K E : Type} [DecidableEq K] {l : List (K × E)}
    {k : K} (h : (l.map Prod.fst).Nodup) : dictLookup (dictErase l k) k = none := by
  induction l with
  | nil => simp [dictErase, dictLookup]
  | cons p ps ih =>
    simp only [List.map_cons, List.nodup_cons] at h
    by_cases hp : p.1 = k
    · simp only [dictErase, if_pos hp]
      rw [dictLookup_eq_none_iff]
      exact hp ▸ h.1
    · simp only [dictErase, if_neg hp, dictLookup, if_neg hp]
      exact ih h.2

theorem foldl_oldest_spec {K V : Type} (ps : List (K × CacheEntry V)) (p : K × CacheEntry V) :
    (ps.foldl (fun best q =>
        if q.2.last_accessed < best.2.last_accessed then q else best) p) ∈ p :: ps ∧
    ∀ q ∈ p :: ps,
      (ps.foldl (fun best q =>
        if q.2.last_accessed < best.2.last_accessed then q else best) p).2.last_accessed
        ≤ q.2.last_accessed := by
  induction ps generalizing p with
  | nil =>
    refine ⟨List.mem_singleton.mpr rfl, ?_⟩
    intro q hq
    rw [List.mem_singleton.mp hq]
    exact Nat.le_refl _
  | cons r rs ih =>
    have step : (r :: rs).foldl (fun best q =>
        if q.2.last_accessed < best.2.last_accessed then q else best) p =
        rs.foldl (fun best q =>
          if q.2.last_accessed < best.2.last_accessed then q else best)
          (if r.2.last_accessed < p.2.last_accessed then r else p) := rfl
    obtain ⟨hmem, hmin⟩ := ih (if r.2.last_accessed < p.2.last_accessed then r else p)
    constructor
    · rw [step]
      rcases List.mem_cons.mp hmem with h1 | h2
      · rw [h1]
        by_cases hlt : r.2.last_accessed < p.2.last_accessed
        · simp [hlt]
        · simp [hlt]
      · exact List.mem_cons.mpr (Or.inr (List.mem_cons.mpr (Or.inr h2)))
    · intro q hq
      rw [step]
      have hhead : (if r.2.last_accessed < p.2.last_accessed then r else p).2.last_accessed
          ≤ p.2.last_accessed ∧
          (if r.2.last_accessed < p.2.last_accessed then r else p).2.last_accessed
          ≤ r.2.last_accessed := by
        by_cases hlt : r.2.last_accessed < p.2.last_accessed
        · simp only [if_pos hlt]
          exact ⟨Nat.le_of_lt hlt, Nat.le_refl _⟩
        · simp only [if_neg hlt]
          exact ⟨Nat.le_refl _, Nat.le_of_not_lt hlt⟩
      have hfold := hmin (if r.2.last_accessed < p.2.last_accessed then r else p)
        (List.mem_cons_self _ _)
      rcases List.mem_cons.mp hq with h1 | h2
      · rw [h1]
        exact Nat.le_trans hfold hhead.1
      · rcases List.mem_cons.mp h2 with h3 | h4
        · rw [h3]
          exact Nat.le_trans hfold hhead.2
        · exact hmin q (List.mem_cons.mpr (Or.inr h4))

theorem oldestKey_spec {K V : Type} {l : List (K × CacheEntry V)} (h : l ≠ []) :
    ∃ w e, oldestKey l = some w ∧ (w, e) ∈ l ∧
      ∀ q ∈ l, e.last_accessed ≤ q.2.last_accessed := by
  cases l with
  | nil => exact absurd rfl h
  | cons p ps =>
    obtain ⟨hmem, hmin⟩ := foldl_oldest_spec ps p
    exact ⟨_, _, rfl, hmem, hmin⟩

theorem mem_map_fst_of_mem {K E : Type} {l : List (K × E)} {k : K} {e : E}
    (h : (k, e) ∈ l) : k ∈ l.map Prod.fst :=
  List.mem_map.mpr ⟨(k, e), h, rfl⟩

/-! ### Helper lemmas about the cache operations -/

theorem nodup_keys_evict {K V : Type} [DecidableEq K] (c : CacheService K V)
    (hnd : (c.cache.map Prod.fst).Nodup) :
    (c.evict_oldest.cache.map Prod.fst).Nodup := by
  unfold CacheService.evict_oldest
  cases h : oldestKey c.cache with
  | none => exact hnd
  | some w => exact nodup_keys_dictErase w hnd

theorem nodup_keys_set {K V : Type} [DecidableEq K] (c : CacheService K V) (k : K)
    (v : Option V) (ttl : Option Nat) (now : Nat)
    (hnd : (c.cache.map Prod.fst).Nodup) :
    ((c.set k v ttl now).cache.map Prod.fst).Nodup := by
  unfold CacheService.set
  apply nodup_keys_dictInsert
  split
  · exact nodup_keys_evict c hnd
  · exact hnd

theorem nodup_keys_get {K V : Type} [DecidableEq K] (c : CacheService K V) (k : K)
    (now : Nat) (hnd : (c.cache.map Prod.fst).Nodup) :
    ((c.get k now).2.cache.map Prod.fst).Nodup := by
  cases h : dictLookup c.cache k with
  | none => simpa [CacheService.get, h] using hnd
  | some e =>
    simp only [CacheService.get, h]
    split
    · exact nodup_keys_dictErase k hnd
    · exact nodup_keys_dictInsert k _ hnd

theorem lookup_set_self {K V : Type} [DecidableEq K] (c : CacheService K V) (k : K)
    (v : Option V) (ttl : Option Nat) (now : Nat) :
    dictLookup (c.set k v ttl now).cache k =
      some (CacheEntry.init v (ttl.getD c.default_ttl) now) := by
  unfold CacheService.set
  exact dictLookup_dictInsert_self _ k _

theorem length_set_le {K V : Type} [DecidableEq K] (c : CacheService K V) (k : K)
    (v : Option V) (ttl : Option Nat) (now : Nat) (hmax : 0 < c.max_size)
    (hlen : c.cache.length ≤ c.max_size) :
    (c.set k v ttl now).cache.length ≤ c.max_size := by
  unfold CacheService.set
  by_cases hfull : c.cache.length ≥ c.max_size
  · have hne : c.cache ≠ [] := by
      intro hnil
      rw [hnil] at hfull
      simp at hfull
      omega
    obtain ⟨w, e, hw, hmem, -⟩ := oldestKey_spec hne
    have hwk : w ∈ c.cache.map Prod.fst := mem_map_fst_of_mem hmem
    have herase : (dictErase c.cache w).length + 1 = c.cache.length :=
      length_dictErase_of_mem hwk
    simp only [if_pos hfull]
    unfold CacheService.evict_oldest
    rw [hw]
    calc (dictInsert (dictErase c.cache w) k
            (CacheEntry.init v (ttl.getD c.default_ttl) now)).length
        ≤ (dictErase c.cache w).length + 1 := length_dictInsert_le _ _ _
      _ = c.cache.length := herase
      _ ≤ c.max_size := hlen
  · simp only [if_neg hfull]
    have hlt : c.cache.length < c.max_size := Nat.lt_of_not_le hfull
    calc (dictInsert c.cache k
            (CacheEntry.init v (ttl.getD c.default_ttl) now)).length
        ≤ c.cache.length + 1 := length_dictInsert_le _ _ _
      _ ≤ c.max_size := hlt

theorem length_get_le {K V : Type} [DecidableEq K] (c : CacheService K V) (k : K)
    (now : Nat) : (c.get k now).2.cache.length ≤ c.cache.length := by
  cases h : dictLookup c.cache k with
  | none => simp [CacheService.get, h]
  | some e =>
    simp only [CacheService.get, h]
    split
    · exact length_dictErase_le _ _
    · rw [length_dictInsert_of_mem _ (mem_keys_of_dictLookup h)]

/-! ### Claim C3 -/

/-- C3: `set(k, v, ttl=T)` immediately followed by `get(k)` returns `v`; a
`get(k)` after the expiry time (created-at + T) has passed misses and lazily
deletes the entry; and a hit on an unexpired entry increments its access
count and refreshes its last-accessed timestamp. -/
theorem C3_cache_roundtrip_expiry_access
    {K V : Type} [DecidableEq K] (c : CacheService K V) (k : K) (v : Option V)
    (T now now2 : Nat) (hnd : (c.cache.map Prod.fst).Nodup) :
    (((c.set k v (some T) now).get k now).1 = v) ∧
    (now + T < now2 →
      ((c.set k v (some T) now).get k now2).1 = none ∧
      dictLookup ((c.set k v (some T) now).get k now2).2.cache k = none) ∧
    (∀ e, dictLookup c.cache k = some e → e.is_expired now = false →
      (c.get k now).1 = e.value ∧
      dictLookup (c.get k now).2.cache k =
        some { e with access_count := e.access_count + 1, last_accessed := now }) := by
  have hset : dictLookup (c.set k v (some T) now).cache k =
      some (CacheEntry.init v T now) := lookup_set_self c k v (some T) now
  refine ⟨?_, ?_, ?_⟩
  · have hexp : (CacheEntry.init v T now).is_expired now = false := by
      simp [CacheEntry.init, CacheEntry.is_expired]
    simp only [CacheService.get, hset, hexp, Bool.false_eq_true, if_false]
    rfl
  · intro hlt
    have hexp : (CacheEntry.init v T now).is_expired now2 = true := by
      simp only [CacheEntry.init, CacheEntry.is_expired, decide_eq_true_eq]
      omega
    constructor
    · simp [CacheService.get, hset, hexp]
    · simp only [CacheService.get, hset, hexp, if_true]
      exact dictLookup_dictErase_self (nodup_keys_set c k v (some T) now hnd)
  · intro e he hexp
    simp only [CacheService.get, he, hexp]
    constructor
    · simp
    · simp only [Bool.false_eq_true, if_false]
      rw [dictLookup_dictInsert_self]
      rfl

/-- Witness for C3 at concrete inputs: an entry set at time 0 with TTL 5 is
readable at times 0 and 3 (with updated metadata) and gone at time 6. -/
theorem C3_witness :
    ((cacheW.set 0 (some 1) (some 5) 0).get 0 0).1 = some 1 ∧
    (((cacheW.set 0 (some 1) (some 5) 0).get 0 6).1 = none ∧
      dictLookup ((cacheW.set 0 (some 1) (some 5) 0).get 0 6).2.cache 0 = none) ∧
    (((cacheW.set 0 (some 1) (some 5) 0).get 0 3).1 = some 1 ∧
      dictLookup ((cacheW.set 0 (some 1) (some 5) 0).get 0 3).2.cache 0 =
        some { value := some 1, created_at := 0, expires_at := 5,
               access_count := 1, last_accessed := 3 }) := by
  have h := C3_cache_roundtrip_expiry_access cacheW 0 (some 1) 5 0 6 (by decide)
  have h3 := (C3_cache_roundtrip_expiry_access (cacheW.set 0 (some 1) (some 5) 0)
      0 (some 1) 5 3 99 (by decide)).2.2
      { value := some 1, created_at := 0, expires_at := 5,
        access_count := 0, last_accessed := 0 } (by decide) (by decide)
  exact ⟨h.1, h.2.1 (by decide), h3⟩

theorem length_dictInsert_of_not_mem {K E : Type} [DecidableEq K] {l : List (K × E)}
    {k : K} (e : E) (h : k ∉ l.map Prod.fst) :
    (dictInsert l k e).length = l.length + 1 := by
  have hm := map_fst_dictInsert_of_not_mem e h
  have h1 : ((dictInsert l k e).map Prod.fst).length = (l.map Prod.fst ++ [k]).length := by
    rw [hm]
  simpa using h1

theorem get_preserves_sizes {K V : Type} [DecidableEq K] (c : CacheService K V)
    (k : K) (now : Nat) :
    (c.get k now).2.max_size = c.max_size ∧
    (c.get k now).2.default_ttl = c.default_ttl := by
  cases h : dictLookup c.cache k with
  | none => simp [CacheService.get, h]
  | some e =>
    simp only [CacheService.get, h]
    split
    · exact ⟨rfl, rfl⟩
    · exact ⟨rfl, rfl⟩

/-! ### Claim C4 -/

/-- C4: the store never exceeds `max_size`: `set`, `get`, `delete`, `clear`
and `get_or_set` each preserve the bound, and a `set` performed on a full
store first evicts exactly one entry — one whose last-accessed timestamp is
oldest — before inserting, so a fresh key inserted into a full store leaves
the size exactly at `max_size`. -/
theorem C4_cache_size_bound_lru
    {K V : Type} [DecidableEq K] (c : CacheService K V) (k : K) (v : Option V)
    (ttl : Option Nat) (now : Nat)
    (_hnd : (c.cache.map Prod.fst).Nodup) (hmax : 0 < c.max_size)
    (hlen : c.cache.length ≤ c.max_size) :
    ((c.set k v ttl now).cache.length ≤ c.max_size) ∧
    (∀ k2 now2, (c.get k2 now2).2.cache.length ≤ c.max_size) ∧
    (∀ k2, (c.delete k2).2.cache.length ≤ c.max_size) ∧
    (c.clear.cache.length ≤ c.max_size) ∧
    (∀ (fac : Except String (Option V)) (ttl2 : Option Nat),
      (c.get_or_set k fac ttl2 now).state.cache.length ≤ c.max_size) ∧
    (c.cache.length = c.max_size →
      ∃ w e, oldestKey c.cache = some w ∧ (w, e) ∈ c.cache ∧
        (∀ q ∈ c.cache, e.last_accessed ≤ q.2.last_accessed) ∧
        (c.set k v ttl now).cache =
          dictInsert (dictErase c.cache w) k
            (CacheEntry.init v (ttl.getD c.default_ttl) now) ∧
        (dictLookup c.cache k = none →
          (c.set k v ttl now).cache.length = c.max_size)) := by
  refine ⟨length_set_le c k v ttl now hmax hlen, ?_, ?_, ?_, ?_, ?_⟩
  · intro k2 now2
    exact Nat.le_trans (length_get_le c k2 now2) hlen
  · intro k2
    unfold CacheService.delete
    split
    · exact Nat.le_trans (length_dictErase_le _ _) hlen
    · exact hlen
  · simp [CacheService.clear]
  · intro fac ttl2
    have hms := (get_preserves_sizes c k now).1
    have hgl : (c.get k now).2.cache.length ≤ c.max_size :=
      Nat.le_trans (length_get_le c k now) hlen
    cases hv : (c.get k now).1 with
    | some value =>
      simp only [CacheService.get_or_set, hv]
      exact hgl
    | none =>
      cases fac with
      | ok value =>
        simp only [CacheService.get_or_set, hv]
        have hs := length_set_le ((c.get k now).2) k value ttl2 now
          (by rw [hms]; exact hmax) (by rw [hms]; exact hgl)
        rw [hms] at hs
        exact hs
      | error e =>
        simp only [CacheService.get_or_set, hv]
        exact hgl
  · intro hfull
    have hne : c.cache ≠ [] := by
      intro hnil
      rw [hnil] at hfull
      simp at hfull
      omega
    obtain ⟨w, e, hw, hmem, hmin⟩ := oldestKey_spec hne
    have hwk : w ∈ c.cache.map Prod.fst := mem_map_fst_of_mem hmem
    have hform : (c.set k v ttl now).cache =
        dictInsert (dictErase c.cache w) k
          (CacheEntry.init v (ttl.getD c.default_ttl) now) := by
      unfold CacheService.set CacheService.evict_oldest
      simp only [if_pos (Nat.le_of_eq hfull.symm), hw]
    refine ⟨w, e, hw, hmem, hmin, hform, ?_⟩
    intro hk
    have hk2 : k ∉ (dictErase c.cache w).map Prod.fst := by
      intro hmem2
      have hsub : List.Sublist ((dictErase c.cache w).map Prod.fst)
          (c.cache.map Prod.fst) := (dictErase_sublist c.cache w).map Prod.fst
      exact (dictLookup_eq_none_iff c.cache k).mp hk (hsub.mem hmem2)
    rw [hform, length_dictInsert_of_not_mem _ hk2,
      length_dictErase_of_mem hwk, hfull]

/-- Witness for C4: inserting a third distinct key into the full two-entry
cache `cacheFull` evicts exactly the least-recently-accessed entry (key `1`)
and keeps the size at `max_size = 2`. -/
theorem C4_witness :
    ((cacheFull.set 2 (some 9) none 10).cache.length ≤ 2) ∧
    (∃ w e, oldestKey cacheFull.cache = some w ∧ (w, e) ∈ cacheFull.cache ∧
      (∀ q ∈ cacheFull.cache, e.last_accessed ≤ q.2.last_accessed) ∧
      (cacheFull.set 2 (some 9) none 10).cache =
        dictInsert (dictErase cacheFull.cache w) 2
          (CacheEntry.init (some 9) (Option.getD none cacheFull.default_ttl) 10) ∧
      (dictLookup cacheFull.cache 2 = none →
        (cacheFull.set 2 (some 9) none 10).cache.length = 2)) := by
  have h := C4_cache_size_bound_lru cacheFull 2 (some 9) none 10
    (by decide) (by decide) (by decide)
  exact ⟨h.1, h.2.2.2.2.2 (by decide)⟩

/-! ### Claim C10 -/

/-- C10: a key whose stored value is `None` is indistinguishable from a miss
at the public interface: `get` returns `None` exactly as for an absent key,
`get_or_set` runs its factory once even though an unexpired entry exists,
and a `None` written by `set` always reads back as `None` — the value `None`
can never be round-tripped through the cache. -/
theorem C10_none_value_is_a_miss
    {K V : Type} [DecidableEq K] (c : CacheService K V) (k : K) (e : CacheEntry V)
    (now : Nat) (he : dictLookup c.cache k = some e) (hv : e.value = none)
    (hexp : e.is_expired now = false) :
    ((c.get k now).1 = none) ∧
    (∀ (w : Option V) (ttl : Option Nat),
      (c.get_or_set k (Except.ok w : Except String (Option V)) ttl now).factory_calls = 1 ∧
      (c.get_or_set k (Except.ok w : Except String (Option V)) ttl now).result =
        Except.ok w) ∧
    (∀ (c2 : CacheService K V) (ttl : Option Nat) (now2 now3 : Nat),
      ((c2.set k none ttl now2).get k now3).1 = none) := by
  have hget1 : (c.get k now).1 = none := by
    simp only [CacheService.get, he, hexp, Bool.false_eq_true, if_false]
    exact hv
  refine ⟨hget1, ?_, ?_⟩
  · intro w ttl
    constructor
    · simp only [CacheService.get_or_set, hget1]
    · simp only [CacheService.get_or_set, hget1]
  · intro c2 ttl now2 now3
    have hs := lookup_set_self c2 k (none : Option V) ttl now2
    simp only [CacheService.get, hs]
    split
    · rfl
    · rfl

/-- Witness for C10: the cache `cacheNoneW` stores `None` unexpired at key
`7`; `get` misses, `get_or_set` calls the factory, and a freshly set `None`
reads back as `None`. -/
theorem C10_witness :
    dictLookup cacheNoneW.cache 7 = some (CacheEntry.init none 3600 0) ∧
    (CacheEntry.init (none : Option Nat) 3600 0).value = none ∧
    (CacheEntry.init (none : Option Nat) 3600 0).is_expired 1 = false ∧
    ((cacheNoneW.get 7 1).1 = none) ∧
    ((cacheNoneW.get_or_set 7 (Except.ok (some 5) : Except String (Option Nat))
        none 1).factory_calls = 1) ∧
    ((cacheW.set 3 none none 0).get 3 0).1 = none := by
  have h := C10_none_value_is_a_miss cacheNoneW 7 (CacheEntry.init none 3600 0) 1
    (by decide) (by decide) (by decide)
  exact ⟨by decide, by decide, by decide, h.1, (h.2.1 (some 5) none).1,
    h.2.2 cacheW none 0 0⟩

/-! ### Claim C5 -/

/-- C5 counterexample: `cacheNoneW` holds an unexpired entry at key `7`, yet
`get_or_set` calls the factory (a nonzero call count) and returns the
factory's value `some 5`, which differs from the stored value `None` — so
it is false that whenever the key holds an unexpired entry the cached value
is returned and the factory is not called. -/
theorem C5_counterexample :
    dictLookup cacheNoneW.cache 7 = some (CacheEntry.init none 3600 0) ∧
    (CacheEntry.init (none : Option Nat) 3600 0).is_expired 1 = false ∧
    (cacheNoneW.get_or_set 7 (Except.ok (some 5) : Except String (Option Nat))
      none 1).factory_calls ≠ 0 ∧
    (cacheNoneW.get_or_set 7 (Except.ok (some 5) : Except String (Option Nat))
      none 1).result = Except.ok (some 5) ∧
    some 5 ≠ (CacheEntry.init (none : Option Nat) 3600 0).value := by
  refine ⟨by decide, by decide, by decide, rfl, by decide⟩

/-- C5 (amended): for an absent or expired key, `get_or_set` runs the
factory: a factory failure propagates to the caller and nothing is cached
under the key, and a factory value is stored under the key and returned; a
hit on an unexpired entry whose stored value is not `None` returns the
cached value without running the factory (a stored `None` is treated as a
miss — see C10). -/
theorem C5_get_or_set_amended
    {K V : Type} [DecidableEq K] (c : CacheService K V) (k : K) (ttl : Option Nat)
    (now : Nat) (hnd : (c.cache.map Prod.fst).Nodup) :
    ((dictLookup c.cache k = none ∨
      (∃ e, dictLookup c.cache k = some e ∧ e.is_expired now = true)) →
      (∀ err : String,
        (c.get_or_set k (Except.error err : Except String (Option V)) ttl now).result =
          Except.error err ∧
        (c.get_or_set k (Except.error err : Except String (Option V)) ttl
          now).factory_calls ≠ 0 ∧
        dictLookup (c.get_or_set k (Except.error err : Except String (Option V)) ttl
          now).state.cache k = none) ∧
      (∀ v : Option V,
        (c.get_or_set k (Except.ok v : Except String (Option V)) ttl now).result =
          Except.ok v ∧
        (c.get_or_set k (Except.ok v : Except String (Option V)) ttl
          now).factory_calls = 1 ∧
        ∃ e2, dictLookup (c.get_or_set k (Except.ok v : Except String (Option V)) ttl
            now).state.cache k = some e2 ∧ e2.value = v)) ∧
    (∀ e w, dictLookup c.cache k = some e → e.is_expired now = false →
      e.value = some w →
      ∀ fac : Except String (Option V),
        (c.get_or_set k fac ttl now).result = Except.ok (some w) ∧
        (c.get_or_set k fac ttl now).factory_calls = 0) := by
  constructor
  · intro hmiss
    have hget1 : (c.get k now).1 = none ∧
        dictLookup (c.get k now).2.cache k = none := by
      rcases hmiss with habs | ⟨e, he, hexp⟩
      · constructor
        · simp [CacheService.get, habs]
        · simp only [CacheService.get, habs]
      · constructor
        · simp [CacheService.get, he, hexp]
        · simp only [CacheService.get, he, hexp, if_true]
          exact dictLookup_dictErase_self hnd
    constructor
    · intro err
      refine ⟨?_, ?_, ?_⟩
      · simp only [CacheService.get_or_set, hget1.1]
      · simp only [CacheService.get_or_set, hget1.1]
        decide
      · simp only [CacheService.get_or_set, hget1.1]
        exact hget1.2
    · intro v
      refine ⟨?_, ?_, ?_⟩
      · simp only [CacheService.get_or_set, hget1.1]
      · simp only [CacheService.get_or_set, hget1.1]
      · simp only [CacheService.get_or_set, hget1.1]
        exact ⟨_, lookup_set_self _ k v ttl now, rfl⟩
  · intro e w he hexp hv fac
    have hget1 : (c.get k now).1 = some w := by
      simp only [CacheService.get, he, hexp, Bool.false_eq_true, if_false]
      exact hv
    constructor
    · simp only [CacheService.get_or_set, hget1]
    · simp only [CacheService.get_or_set, hget1]

/-- Witness for the amended C5: on the empty cache the factory failure
propagates (and a factory value is stored once), while on `cacheFull` the
unexpired entry at key `0` with value `some 10` is returned without running
the factory. -/
theorem C5_witness :
    ((cacheW.get_or_set 0 (Except.error "boom" : Except String (Option Nat))
        none 0).result = Except.error "boom") ∧
    ((cacheW.get_or_set 0 (Except.ok (some 4) : Except String (Option Nat))
        none 0).factory_calls = 1) ∧
    ((cacheFull.get_or_set 0 (Except.error "x" : Except String (Option Nat))
        none 100).result = Except.ok (some 10)) ∧
    ((cacheFull.get_or_set 0 (Except.error "x" : Except String (Option Nat))
        none 100).factory_calls = 0) := by
  have h := C5_get_or_set_amended cacheW 0 none 0 (by decide)
  have hm := h.1 (Or.inl (by decide))
  have h2 := (C5_get_or_set_amended cacheFull 0 none 100 (by decide)).2
    { value := some 10, created_at := 0, expires_at := 3600,
      access_count := 0, last_accessed := 5 } 10 (by decide) (by decide) rfl
    (Except.error "x")
  exact ⟨(hm.1 "boom").1, (hm.2 (some 4)).2.1, h2.1, h2.2⟩

/-! ### Lemmas about the fallback invoker -/

theorem foldl_dedup_eq (l : List String) (acc : List String) (hnd : l.Nodup) :
    l.foldl (fun acc name => if name ∈ acc then acc else acc ++ [name]) acc =
      acc ++ l.filter (fun n => decide (n ∉ acc)) := by
  induction l generalizing acc with
  | nil => simp
  | cons x xs ih =>
    simp only [List.nodup_cons] at hnd
    by_cases hx : x ∈ acc
    · rw [List.foldl_cons]
      simp only [if_pos hx]
      rw [ih acc hnd.2]
      congr 1
      simp [List.filter_cons, hx]
    · rw [List.foldl_cons]
      simp only [if_neg hx]
      rw [ih (acc ++ [x]) hnd.2, List.append_assoc]
      congr 1
      have hxacc : List.filter (fun n => decide (n ∉ acc)) (x :: xs) =
          x :: List.filter (fun n => decide (n ∉ acc)) xs := by
        simp [List.filter_cons, hx]
      rw [hxacc]
      simp only [List.singleton_append, List.cons.injEq, true_and]
      apply List.filter_congr
      intro n hn
      have hnx : n ≠ x := fun h => hnd.1 (h ▸ hn)
      simp [List.mem_append, hnx]

theorem models_to_try_spec (m : LLMManager) (hwf : m.WF) (p : String) :
    (p ∈ m.model_order → m.models_to_try (some p) =
       p :: m.model_order.filter (fun n => decide (n ≠ p))) ∧
    (p ∉ m.model_order → m.models_to_try (some p) = m.model_order) ∧
    m.models_to_try none = m.model_order := by
  obtain ⟨hkeys, hnd, hne⟩ := hwf
  refine ⟨?_, ?_, ?_⟩
  · intro hmem
    have hp : p ≠ "" := fun h => hne (h ▸ hmem)
    have hreg : (dictLookup m.models p).isSome = true := by
      rw [dictLookup_isSome_iff, hkeys]
      exact hmem
    unfold LLMManager.models_to_try
    simp only [if_pos (And.intro hp hreg)]
    rw [foldl_dedup_eq m.model_order [p] hnd]
    simp only [List.singleton_append]
    congr 1
    apply List.filter_congr
    intro n _
    simp [List.mem_singleton]
  · intro hmem
    have hcond : ¬(p ≠ "" ∧ (dictLookup m.models p).isSome = true) := by
      intro ⟨_, hreg⟩
      rw [dictLookup_isSome_iff, hkeys] at hreg
      exact hmem hreg
    unfold LLMManager.models_to_try
    simp only [if_neg hcond]
    rw [foldl_dedup_eq m.model_order [] hnd]
    simp
  · unfold LLMManager.models_to_try
    rw [foldl_dedup_eq m.model_order [] hnd]
    simp

theorem tryModelsLoop_all_fail (models : List (String × (List Message → Option String)))
    (msgs : List Message) (cand : List String)
    (h : ∀ c ∈ cand, ∀ f, dictLookup models c = some f → f msgs = none) :
    tryModelsLoop models msgs cand = (allFailedResult, cand) := by
  induction cand with
  | nil => rfl
  | cons name rest ih =>
    have hrest := ih (fun c hc f hf => h c (List.mem_cons_of_mem _ hc) f hf)
    cases hl : dictLookup models name with
    | none => simp [tryModelsLoop, hl, hrest]
    | some f =>
      have hfail : f msgs = none := h name (List.mem_cons_self _ _) f hl
      simp [tryModelsLoop, hl, hfail, hrest]

theorem tryModelsLoop_first_success
    (models : List (String × (List Message → Option String))) (msgs : List Message)
    (A B : List String) (c t : String)
    (hA : ∀ a ∈ A, ∀ f, dictLookup models a = some f → f msgs = none)
    (hc : ∃ g, dictLookup models c = some g ∧ g msgs = some t) :
    tryModelsLoop models msgs (A ++ c :: B) =
      ({ success := true, response := t, model_used := some c, error := none },
       A ++ [c]) := by
  induction A with
  | nil =>
    obtain ⟨g, hg, hgt⟩ := hc
    simp [tryModelsLoop, hg, hgt]
  | cons a A ih =>
    have h1 := hA a (List.mem_cons_self _ _)
    have hrest := ih (fun x hx f hf => hA x (List.mem_cons_of_mem _ hx) f hf)
    cases hl : dictLookup models a with
    | none => simp [tryModelsLoop, hl, hrest]
    | some f =>
      have hfail := h1 f hl
      simp [tryModelsLoop, hl, hfail, hrest]

/-! ### Claim C1 -/

/-- C1: the candidates tried by `generate_text` are the preferred model (when
it is a registered identifier — an unregistered one is silently ignored)
followed by the remaining registered identifiers in registration order
without duplicates; and when the candidates split as `A ++ c :: B` with every
model in `A` raising and `c` succeeding with text `t`, the call returns
`success=true`, the text `t` and `model_used = c`, having invoked exactly
`A ++ [c]` — no candidate after `c`. -/
theorem C1_generate_text_order_and_fallback
    (m : LLMManager) (hwf : m.WF) (prompt : String) (sp : Option String) (p : String) :
    ((p ∈ m.model_order → m.models_to_try (some p) =
        p :: m.model_order.filter (fun n => decide (n ≠ p))) ∧
     (p ∉ m.model_order → m.models_to_try (some p) = m.model_order) ∧
     (m.models_to_try none = m.model_order)) ∧
    (∀ (pref : Option String) (A B : List String) (c t : String),
      m.models_to_try pref = A ++ c :: B →
      (∀ a ∈ A, ∀ f, dictLookup m.models a = some f →
        f (buildMessages prompt sp) = none) →
      (∃ g, dictLookup m.models c = some g ∧
        g (buildMessages prompt sp) = some t) →
      m.generate_text prompt sp pref =
        ({ success := true, response := t, model_used := some c, error := none },
         A ++ [c])) := by
  refine ⟨models_to_try_spec m hwf p, ?_⟩
  intro pref A B c t hcand hA hc
  unfold LLMManager.generate_text
  rw [hcand]
  exact tryModelsLoop_first_success m.models (buildMessages prompt sp) A B c t hA hc

/-- Witness for C1: on the registry `mW` the preferred model `groq` is moved
to the front, and with no preference the failing `openai` is tried first and
the succeeding `groq` answers, `google` untried. -/
theorem C1_witness :
    mW.models_to_try (some "groq") = ["groq", "openai", "google"] ∧
    mW.generate_text "ping" none none =
      ({ success := true, response := "hello from groq", model_used := some "groq",
         error := none }, ["openai", "groq"]) := by
  have h := C1_generate_text_order_and_fallback mW ⟨rfl, by decide, by decide⟩
    "ping" none "groq"
  constructor
  · rw [h.1.1 (by decide)]
    rfl
  · refine h.2 none ["openai"] ["google"] "groq" "hello from groq" rfl ?_ ?_
    · intro a ha f hf
      have ha2 : a = "openai" := by
        simpa using ha
      subst ha2
      have heq : dictLookup mW.models "openai" =
          some (fun _ => (none : Option String)) := rfl
      rw [heq] at hf
      cases hf
      rfl
    · exact ⟨fun _ => some "hello from groq", rfl, rfl⟩

/-! ### Claim C2 -/

/-- C2: when the candidate list is empty or every candidate raises,
`generate_text` returns `success=false` with the fixed apology string and
`model_used=None`; with an empty registry no provider at all is invoked (the
returned trace is empty). -/
theorem C2_generate_text_failure
    (m : LLMManager) (prompt : String) (sp pref : Option String) :
    (allFailedResult =
      { success := false,
        response := "I apologize, but I'm unable to generate a response at this time. Please try again later.",
        model_used := none,
        error := some "All LLM models failed to generate response" }) ∧
    (m.models_to_try pref = [] → m.generate_text prompt sp pref = (allFailedResult, [])) ∧
    (m.models = [] → m.model_order = [] →
      m.generate_text prompt sp pref = (allFailedResult, [])) ∧
    ((∀ c ∈ m.models_to_try pref, ∀ f, dictLookup m.models c = some f →
        f (buildMessages prompt sp) = none) →
      m.generate_text prompt sp pref = (allFailedResult, m.models_to_try pref)) := by
  refine ⟨rfl, ?_, ?_, ?_⟩
  · intro h
    unfold LLMManager.generate_text
    rw [h]
    rfl
  · intro hm ho
    have hcand : m.models_to_try pref = [] := by
      unfold LLMManager.models_to_try
      rw [ho]
      cases pref with
      | none => rfl
      | some p =>
        have : ¬(p ≠ "" ∧ (dictLookup m.models p).isSome = true) := by
          intro ⟨_, hreg⟩
          rw [hm] at hreg
          cases hreg
        simp only [if_neg this]
        rfl
    unfold LLMManager.generate_text
    rw [hcand]
    rfl
  · intro hall
    unfold LLMManager.generate_text
    exact tryModelsLoop_all_fail m.models (buildMessages prompt sp)
      (m.models_to_try pref) hall

/-- Witness for C2: the empty registry fails without invoking anything, and
the all-failing registry `mFail` fails with the apology after trying its one
model. -/
theorem C2_witness :
    mEmpty.generate_text "p" none (some "openai") = (allFailedResult, []) ∧
    mFail.generate_text "p" none none = (allFailedResult, ["openai"]) := by
  constructor
  · exact (C2_generate_text_failure mEmpty "p" none (some "openai")).2.2.1 rfl rfl
  · refine (C2_generate_text_failure mFail "p" none none).2.2.2 ?_
    intro c hc f hf
    have hlist : mFail.models_to_try none = ["openai"] := rfl
    rw [hlist] at hc
    have hc2 : c = "openai" := by
      simpa using hc
    subst hc2
    have heq : dictLookup mFail.models "openai" =
        some (fun _ => (none : Option String)) := rfl
    rw [heq] at hf
    cases hf
    rfl

/-! ### Claim C6 -/

/-- C6: `process_email` always returns a reply response (subject, body,
intent) and never propagates an internal exception; whenever any step
raises — the CRM lookup, the mail send, or the new-lead CRM insert — the
returned response is exactly the hand-written new-customer fallback template
and reports `sent=True`. -/
theorem C6_process_email_fallback (env : EmailEnv) (req : EmailRequest) :
    (((∃ msg, env.check_lead = Except.error msg) ∨
      (∃ msg, env.send_email = Except.error msg) ∨
      (∃ lead msg, env.check_lead = Except.ok lead ∧ lead.exists_lead = false ∧
        env.add_new_lead = Except.error msg)) →
      process_email env req = fallbackResponse req) ∧
    (fallbackResponse req).sent = true ∧
    (fallbackResponse req).subject = (generate_fallback_email req true).subject ∧
    (fallbackResponse req).body = (generate_fallback_email req true).body ∧
    (fallbackResponse req).intent = (generate_fallback_email req true).intent := by
  refine ⟨?_, rfl, rfl, rfl, rfl⟩
  intro herr
  rcases herr with ⟨msg, hcl⟩ | ⟨msg, hse⟩ | ⟨lead, msg, hok, hnl, hadd⟩
  · simp [process_email, hcl]
  · cases hcl : env.check_lead with
    | error m => simp [process_email, hcl]
    | ok lead => simp [process_email, hcl, hse]
  · cases hse : env.send_email with
    | error m => simp [process_email, hok, hse]
    | ok sr => simp [process_email, hok, hnl, hse, hadd]

/-- Witness for C6: the environment `envErrW`, whose CRM lookup raises,
yields exactly the fallback response, which is marked sent. -/
theorem C6_witness :
    (∃ msg, envErrW.check_lead = Except.error msg) ∧
    process_email envErrW reqW = fallbackResponse reqW ∧
    (fallbackResponse reqW).sent = true := by
  have h := C6_process_email_fallback envErrW reqW
  exact ⟨⟨"crm down", rfl⟩, h.1 (Or.inl ⟨"crm down", rfl⟩), h.2.1⟩

/-! ### Claim C7 -/

/-- C7: batch processing returns exactly one result per input email, in the
original order; an exception while processing the email at index `i` yields
an error marker at index `i`, a success yields its result at index `i`, and
each index's outcome depends only on its own email's processing (so one
branch's failure cannot affect another) — for both
`AIProviderManager.batch_process_emails` and the `web_server.py` batch
loop. -/
theorem C7_batch_positional_and_independent
    {ε ρ : Type} (proc proc2 : ε → Except String ρ)
    (procws procws2 : ε → Except String (Option String × String))
    (emails : List ε) :
    ((batch_process_emails proc emails).length = emails.length) ∧
    (∀ (i : Nat) (e : ε) (msg : String), emails[i]? = some e →
      proc e = Except.error msg →
      (batch_process_emails proc emails)[i]? = some (BatchOutcome.failed msg e)) ∧
    (∀ (i : Nat) (e : ε) (r : ρ), emails[i]? = some e → proc e = Except.ok r →
      (batch_process_emails proc emails)[i]? = some (BatchOutcome.ok r)) ∧
    (∀ (i : Nat) (e : ε), emails[i]? = some e → proc e = proc2 e →
      (batch_process_emails proc emails)[i]? =
        (batch_process_emails proc2 emails)[i]?) ∧
    ((ws_batch_process procws emails).length = emails.length) ∧
    (∀ (i : Nat) (e : ε) (msg : String), emails[i]? = some e →
      procws e = Except.error msg →
      (ws_batch_process procws emails)[i]? =
        some { index := i, success := false, sender_name := none, reply := none,
               error := some msg }) ∧
    (∀ (i : Nat) (e : ε) (n : Option String) (rep : String), emails[i]? = some e →
      procws e = Except.ok (n, rep) →
      (ws_batch_process procws emails)[i]? =
        some { index := i, success := true, sender_name := some n,
               reply := some rep, error := none }) ∧
    (∀ (i : Nat) (e : ε), emails[i]? = some e → procws e = procws2 e →
      (ws_batch_process procws emails)[i]? =
        (ws_batch_process procws2 emails)[i]?) := by
  refine ⟨by simp [batch_process_emails], ?_, ?_, ?_,
    by simp [ws_batch_process], ?_, ?_, ?_⟩
  · intro i e msg hi hp
    simp [batch_process_emails, List.getElem?_map, hi, hp]
  · intro i e r hi hp
    simp [batch_process_emails, List.getElem?_map, hi, hp]
  · intro i e hi hp
    simp [batch_process_emails, List.getElem?_map, hi, hp]
  · intro i e msg hi hp
    simp [ws_batch_process, List.getElem?_map, List.getElem?_enum, hi, hp]
  · intro i e n rep hi hp
    simp [ws_batch_process, List.getElem?_map, List.getElem?_enum, hi, hp]
  · intro i e hi hp
    simp [ws_batch_process, List.getElem?_map, List.getElem?_enum, hi, hp]

/-- Witness for C7: five emails where only index 2 raises give a length-5
result list with the error marker at index 2 and successes elsewhere. -/
theorem C7_witness :
    (batch_process_emails
        (fun n => if n = 2 then Except.error "boom" else Except.ok (n * 10))
        [0, 1, 2, 3, 4]).length = 5 ∧
    (batch_process_emails
        (fun n => if n = 2 then Except.error "boom" else Except.ok (n * 10))
        [0, 1, 2, 3, 4])[2]? = some (BatchOutcome.failed "boom" 2) ∧
    (batch_process_emails
        (fun n => if n = 2 then Except.error "boom" else Except.ok (n * 10))
        [0, 1, 2, 3, 4])[3]? = some (BatchOutcome.ok 30) ∧
    (ws_batch_process
        (fun n : Nat => if n = 2 then Except.error "boom"
          else Except.ok (some "Bob", "hi"))
        [0, 1, 2, 3, 4])[2]? =
      some { index := 2, success := false, sender_name := none, reply := none,
             error := some "boom" } := by
  have h := C7_batch_positional_and_independent
    (fun n => if n = 2 then Except.error "boom" else Except.ok (n * 10))
    (fun n => if n = 2 then Except.error "boom" else Except.ok (n * 10))
    (fun n : Nat => if n = 2 then Except.error "boom"
      else Except.ok (some "Bob", "hi"))
    (fun n : Nat => if n = 2 then Except.error "boom"
      else Except.ok (some "Bob", "hi"))
    [0, 1, 2, 3, 4]
  exact ⟨h.1, h.2.1 2 2 "boom" rfl rfl, h.2.2.1 3 3 30 rfl rfl,
    h.2.2.2.2.2.1 2 2 "boom" rfl rfl⟩

/-! ### Lemmas about the keyword-scoring classifier -/

theorem foldl_argmax_spec (ps : List (String × Nat)) (p : String × Nat) :
    (ps.foldl (fun best q => if q.2 > best.2 then q else best) p) ∈ p :: ps ∧
    ∀ q ∈ p :: ps,
      q.2 ≤ (ps.foldl (fun best q => if q.2 > best.2 then q else best) p).2 := by
  induction ps generalizing p with
  | nil =>
    refine ⟨List.mem_singleton.mpr rfl, ?_⟩
    intro q hq
    rw [List.mem_singleton.mp hq]
    exact Nat.le_refl _
  | cons r rs ih =>
    have step : (r :: rs).foldl (fun best q => if q.2 > best.2 then q else best) p =
        rs.foldl (fun best q => if q.2 > best.2 then q else best)
          (if r.2 > p.2 then r else p) := rfl
    obtain ⟨hmem, hmin⟩ := ih (if r.2 > p.2 then r else p)
    constructor
    · rw [step]
      rcases List.mem_cons.mp hmem with h1 | h2
      · rw [h1]
        by_cases hlt : r.2 > p.2
        · simp [hlt]
        · simp [hlt]
      · exact List.mem_cons.mpr (Or.inr (List.mem_cons.mpr (Or.inr h2)))
    · intro q hq
      rw [step]
      have hhead : p.2 ≤ (if r.2 > p.2 then r else p).2 ∧
          r.2 ≤ (if r.2 > p.2 then r else p).2 := by
        by_cases hlt : r.2 > p.2
        · simp only [if_pos hlt]
          exact ⟨Nat.le_of_lt hlt, Nat.le_refl _⟩
        · simp only [if_neg hlt]
          exact ⟨Nat.le_refl _, Nat.le_of_not_lt hlt⟩
      have hfold := hmin (if r.2 > p.2 then r else p) (List.mem_cons_self _ _)
      rcases List.mem_cons.mp hq with h1 | h2
      · rw [h1]
        exact Nat.le_trans hhead.1 hfold
      · rcases List.mem_cons.mp h2 with h3 | h4
        · rw [h3]
          exact Nat.le_trans hhead.2 hfold
        · exact hmin q (List.mem_cons.mpr (Or.inr h4))

theorem argmaxScore_spec {l : List (String × Nat)} {r : String × Nat}
    (h : argmaxScore l = some r) : r ∈ l ∧ ∀ q ∈ l, q.2 ≤ r.2 := by
  cases l with
  | nil => cases h
  | cons p ps =>
    have hr : r = ps.foldl (fun best q => if q.2 > best.2 then q else best) p := by
      cases h
      rfl
    rw [hr]
    exact foldl_argmax_spec ps p

theorem argmaxScore_eq_none {l : List (String × Nat)} (h : argmaxScore l = none) :
    l = [] := by
  cases l with
  | nil => rfl
  | cons p ps => cases h

theorem argmaxScore_head {p : String × Nat} {ps : List (String × Nat)}
    (h : ∀ q ∈ ps, q.2 ≤ p.2) : argmaxScore (p :: ps) = some p := by
  have hf : ps.foldl (fun best q => if q.2 > best.2 then q else best) p = p := by
    induction ps with
    | nil => rfl
    | cons r rs ih =>
      have hr : ¬r.2 > p.2 := Nat.not_lt.mpr (h r (List.mem_cons_self _ _))
      have step : (r :: rs).foldl (fun best q => if q.2 > best.2 then q else best) p =
          rs.foldl (fun best q => if q.2 > best.2 then q else best)
            (if r.2 > p.2 then r else p) := rfl
      rw [step, if_neg hr]
      exact ih (fun q hq => h q (List.mem_cons_of_mem _ hq))
  show some (ps.foldl (fun best q => if q.2 > best.2 then q else best) p) = some p
  rw [hf]

/-! ### Claim C8 -/

/-- C8 counterexample: the input `"pricing help issue problem"` contains the
word `pricing`, yet `determine_intent` classifies it as `support` (three
support keyword hits beat two sales hits), refuting the claim that every
input containing `pricing` is classified as `sales`. -/
theorem C8_counterexample :
    strContains (pyLower ("" ++ " " ++ "pricing help issue problem")) "pricing" = true ∧
    determine_intent "pricing help issue problem" "" = "support" ∧
    "support" ≠ "sales" := by
  refine ⟨by decide, by decide, by decide⟩

/-- C8 (amended): whenever the model path yields no parsed intent JSON, the
keyword fallback `determine_intent` returns one of the four categories,
returns `general` when no keyword matches at all, always returns a category
whose keyword-hit count is maximal, and classifies an input containing
`pricing` as `sales` provided no other category has more keyword hits (ties
favour `sales`, which is scored first). -/
theorem C8_intent_keyword_scoring (email_content subject : String) :
    (determine_intent email_content subject ∈
      ["sales", "support", "partnership", "general"]) ∧
    ((∀ pr ∈ intent_keywords,
        keywordScore (pyLower (subject ++ " " ++ email_content)) pr.2 = 0) →
      determine_intent email_content subject = "general") ∧
    (∃ s, (determine_intent email_content subject, s) ∈
        intent_keywords.map (fun pr =>
          (pr.1, keywordScore (pyLower (subject ++ " " ++ email_content)) pr.2)) ∧
      ∀ q ∈ intent_keywords.map (fun pr =>
          (pr.1, keywordScore (pyLower (subject ++ " " ++ email_content)) pr.2)),
        q.2 ≤ s) ∧
    (∀ salesKws, dictLookup intent_keywords "sales" = some salesKws →
      strContains (pyLower (subject ++ " " ++ email_content)) "pricing" = true →
      (∀ pr ∈ intent_keywords,
        keywordScore (pyLower (subject ++ " " ++ email_content)) pr.2 ≤
          keywordScore (pyLower (subject ++ " " ++ email_content)) salesKws) →
      determine_intent email_content subject = "sales") := by
  have hdet : determine_intent email_content subject =
      (match argmaxScore (intent_keywords.map (fun pr =>
          (pr.1, keywordScore (pyLower (subject ++ " " ++ email_content)) pr.2))) with
       | some best => if best.2 > 0 then best.1 else "general"
       | none => "general") := rfl
  have hfst : (intent_keywords.map (fun pr =>
      (pr.1, keywordScore (pyLower (subject ++ " " ++ email_content)) pr.2))).map
        Prod.fst = ["sales", "support", "partnership", "general"] := rfl
  have hmax3 : ∃ s, (determine_intent email_content subject, s) ∈
      intent_keywords.map (fun pr =>
        (pr.1, keywordScore (pyLower (subject ++ " " ++ email_content)) pr.2)) ∧
      ∀ q ∈ intent_keywords.map (fun pr =>
        (pr.1, keywordScore (pyLower (subject ++ " " ++ email_content)) pr.2)),
      q.2 ≤ s := by
    cases hbest : argmaxScore (intent_keywords.map (fun pr =>
        (pr.1, keywordScore (pyLower (subject ++ " " ++ email_content)) pr.2))) with
    | none =>
      have := argmaxScore_eq_none hbest
      simp [intent_keywords] at this
    | some best =>
      obtain ⟨hmem, hmax⟩ := argmaxScore_spec hbest
      by_cases hpos : best.2 > 0
      · refine ⟨best.2, ?_, hmax⟩
        rw [hdet, hbest]
        simpa [hpos] using hmem
      · have hbz : best.2 = 0 := Nat.eq_zero_of_not_pos hpos
        have hgen : ("general",
            keywordScore (pyLower (subject ++ " " ++ email_content))
              ["hello", "hi", "information", "question", "inquiry", "contact"]) ∈
            intent_keywords.map (fun pr =>
              (pr.1, keywordScore (pyLower (subject ++ " " ++ email_content)) pr.2)) := by
          simp [intent_keywords]
        have hgz : keywordScore (pyLower (subject ++ " " ++ email_content))
            ["hello", "hi", "information", "question", "inquiry", "contact"] = 0 := by
          have := hmax _ hgen
          omega
        refine ⟨0, ?_, ?_⟩
        · rw [hdet, hbest]
          simp only [hpos, if_false]
          rw [← hgz]
          exact hgen
        · intro q hq
          have := hmax q hq
          omega
  refine ⟨?_, ?_, hmax3, ?_⟩
  · obtain ⟨s, hmem, -⟩ := hmax3
    rw [← hfst]
    exact List.mem_map.mpr ⟨_, hmem, rfl⟩
  · intro hz
    rw [hdet]
    cases hbest : argmaxScore (intent_keywords.map (fun pr =>
        (pr.1, keywordScore (pyLower (subject ++ " " ++ email_content)) pr.2))) with
    | none => rfl
    | some best =>
      obtain ⟨hmem, -⟩ := argmaxScore_spec hbest
      obtain ⟨pr, hpr, hbe⟩ := List.mem_map.mp hmem
      have : best.2 = 0 := by
        rw [← hbe]
        exact hz pr hpr
      simp [this]
  · intro salesKws hlook hpricing hmax
    have hsk : salesKws = ["demo", "pricing", "buy", "purchase", "cost", "price",
        "interested", "product", "quote"] := by
      have hrfl : dictLookup intent_keywords "sales" =
          some ["demo", "pricing", "buy", "purchase", "cost", "price",
            "interested", "product", "quote"] := rfl
      rw [hrfl] at hlook
      exact ((Option.some.injEq _ _).mp hlook).symm
    subst hsk
    have hpos : 0 < keywordScore (pyLower (subject ++ " " ++ email_content))
        ["demo", "pricing", "buy", "purchase", "cost", "price",
         "interested", "product", "quote"] := by
      apply List.length_pos.mpr
      intro hnil
      have hmem : "pricing" ∈ List.filter
          (fun k => strContains (pyLower (subject ++ " " ++ email_content)) k)
          ["demo", "pricing", "buy", "purchase", "cost", "price",
           "interested", "product", "quote"] := by
        rw [List.mem_filter]
        exact ⟨by decide, hpricing⟩
      rw [hnil] at hmem
      cases hmem
    have harg : argmaxScore (intent_keywords.map (fun pr =>
        (pr.1, keywordScore (pyLower (subject ++ " " ++ email_content)) pr.2))) =
        some ("sales", keywordScore (pyLower (subject ++ " " ++ email_content))
          ["demo", "pricing", "buy", "purchase", "cost", "price",
           "interested", "product", "quote"]) := by
      have hsh : intent_keywords.map (fun pr =>
          (pr.1, keywordScore (pyLower (subject ++ " " ++ email_content)) pr.2)) =
          ("sales", keywordScore (pyLower (subject ++ " " ++ email_content))
            ["demo", "pricing", "buy", "purchase", "cost", "price",
             "interested", "product", "quote"]) ::
          (intent_keywords.tail.map (fun pr =>
            (pr.1, keywordScore (pyLower (subject ++ " " ++ email_content)) pr.2))) := rfl
      rw [hsh]
      apply argmaxScore_head
      intro q hq
      obtain ⟨pr, hpr, hqe⟩ := List.mem_map.mp hq
      rw [← hqe]
      exact hmax pr (List.mem_of_mem_tail hpr)
    rw [hdet, harg]
    show (if keywordScore (pyLower (subject ++ " " ++ email_content))
        ["demo", "pricing", "buy", "purchase", "cost", "price",
         "interested", "product", "quote"] > 0 then "sales" else "general") = "sales"
    rw [if_pos hpos]

/-- Witness for the amended C8: `"pricing"` alone is classified `sales`
(sales has the maximal hit count), and a keyword-free input is `general`. -/
theorem C8_witness :
    strContains (pyLower ("" ++ " " ++ "pricing")) "pricing" = true ∧
    determine_intent "pricing" "" = "sales" ∧
    determine_intent "xyzzy" "" = "general" := by
  have h := C8_intent_keyword_scoring "pricing" ""
  have h2 := C8_intent_keyword_scoring "xyzzy" ""
  refine ⟨by decide, ?_, ?_⟩
  · exact h.2.2.2 _ rfl (by decide) (by decide)
  · exact h2.2.1 (by decide)

/-! ### Claim C9 -/

/-- C9 counterexample: with the always-failing registry `mFail` the model
invocation for `"From: Jane Doe\nHello"` fails, yet `extract_sender_name`
returns `none` — the regex helper, which would have produced `"Jane Doe"`,
is never invoked — refuting the claim that sender-name extraction falls
back to regex matching on invocation failure. -/
theorem C9_counterexample :
    (mFail.generate_text "From: Jane Doe\nHello" (some extractSenderSystemPrompt)
      none).1.success = false ∧
    mFail.extract_sender_name "From: Jane Doe\nHello" none = none ∧
    extract_sender_name_fallback "From: Jane Doe\nHello" = some "Jane Doe" ∧
    (none : Option String) ≠ some "Jane Doe" := by
  refine ⟨rfl, rfl, by decide, by decide⟩

/-- C9 (amended): when the model invocation fails, `extract_sender_name`
returns `None` without invoking the regex helper; the standalone helper
`extract_sender_name_fallback` never raises: it returns `"Jane Doe"` on
`"From: Jane Doe\nHello"`, every name it does return has length greater
than one, and it returns `None` when no pattern yields a usable name (as on
the input `"hello"`). -/
theorem C9_sender_name_fallback (m : LLMManager) (content : String)
    (pref : Option String) :
    ((m.generate_text content (some extractSenderSystemPrompt) pref).1.success =
        false →
      m.extract_sender_name content pref = none) ∧
    extract_sender_name_fallback "From: Jane Doe\nHello" = some "Jane Doe" ∧
    (∀ (text : String) (s : String),
      extract_sender_name_fallback text = some s → s.length > 1) ∧
    extract_sender_name_fallback "hello" = none := by
  refine ⟨?_, by decide, ?_, by decide⟩
  · intro h
    simp [LLMManager.extract_sender_name, h]
  · intro text s hs
    obtain ⟨pat, -, hF⟩ := List.exists_of_findSome?_eq_some hs
    rcases hsearch : reSearch pat.1 pat.2 text.data with _ | grp
    · rw [hsearch] at hF
      cases hF
    · rw [hsearch] at hF
      by_cases hcond : (normalizeWs (removeQuoteChars (stripChars grp)) ≠ [] ∧
          (normalizeWs (removeQuoteChars (stripChars grp))).length > 1)
      · simp only [if_pos hcond] at hF
        cases hF
        exact hcond.2
      · simp only [if_neg hcond] at hF
        cases hF

/-- Witness for the amended C9: a failing model makes `extract_sender_name`
return `none`, while the standalone regex helper yields `"Jane Doe"`, a name
of length above one. -/
theorem C9_witness :
    mFail.extract_sender_name "Sender: Ada Lovelace\nHi" none = none ∧
    ("Jane Doe".length > 1) := by
  have h := C9_sender_name_fallback mFail "Sender: Ada Lovelace\nHi" none
  exact ⟨h.1 rfl, h.2.2.1 "From: Jane Doe\nHello" "Jane Doe" h.2.1⟩
